import Mathlib

/-!
# Verification of the ia-get simplified FFI engine

The repository ships the public C-callable interface declaration
(`src/include/ia_get_simple.h`); the engine behind it is described by the
design spec.  This file gives a shallow embedding of that engine — the
error reporter, the checksum engine, the download engine, the format
detector / decompressor and the metadata fetcher — and proves the spec's
testable properties about it.  Since only the interface declaration is in
the sources, every operation below is modelled from the spec, as marked in
its doc comment.
-/

namespace IaGet

/-- Result codes for FFI operations, from `IaGetResult` in
`src/include/ia_get_simple.h` (values 0..4). -/
inductive IaGetResult where
  | Success
  | ErrorNetwork
  | ErrorFileSystem
  | ErrorInvalidInput
  | ErrorInternal
deriving DecidableEq, Repr

/-- Modelled from the spec: the Error Reporter (§4.5) — a thread-scoped
last-error slot, a mapping from calling-thread identity to an optional
human-readable message.  The engine implementation holding this
thread-local storage is not in `src/`. -/
def ErrMap : Type := Nat → Option String

/-- Modelled from the spec: `record(message)` associates a message with the
calling thread, replacing any prior message. -/
def ErrMap.record (m : ErrMap) (tid : Nat) (msg : String) : ErrMap :=
  fun t => if t = tid then some msg else m t

/-- Modelled from the spec: `clear()` removes the current thread's message. -/
def ErrMap.clear (m : ErrMap) (tid : Nat) : ErrMap :=
  fun t => if t = tid then none else m t

/-- Modelled from the spec: `last()` returns the current thread's message or
an absent value if none is set. -/
def ErrMap.last (m : ErrMap) (tid : Nat) : Option String := m tid

/-- A file byte. -/
abbrev Byte : Type := Fin 256

/-- ASCII lower-casing of a character (the case-insensitive comparison of
hex digests only involves ASCII). -/
def lowerChar (c : Char) : Char :=
  if 65 ≤ c.toNat ∧ c.toNat ≤ 90 then Char.ofNat (c.toNat + 32) else c

/-- ASCII lower-casing of a string. -/
def strLower (s : String) : String := ⟨s.data.map lowerChar⟩

/-- The lowercase hex digit character for a value below 16: digits map to
ASCII 48..57 and the values 10..15 to ASCII 97..102 (a..f). -/
def hexDigitChar (n : Nat) : Char :=
  if n < 10 then Char.ofNat (48 + n) else Char.ofNat (87 + n)

/-- Lowercase hex rendering of a byte sequence, two digits per byte. -/
def bytesToHexChars : List Byte → List Char
  | [] => []
  | b :: bs =>
      hexDigitChar (b.val / 16) :: hexDigitChar (b.val % 16) :: bytesToHexChars bs

/-- Hash algorithm selectors accepted by the checksum engine
(`hash_type` of `ia_get_validate_checksum`). -/
inductive HashAlg where
  | md5
  | sha1
  | sha256
deriving DecidableEq, Repr

/-- The selector strings accepted by `ia_get_validate_checksum`:
exactly "md5", "sha1" and "sha256" per the header documentation. -/
def parseHashAlg (s : String) : Option HashAlg :=
  if s = "md5" then some HashAlg.md5
  else if s = "sha1" then some HashAlg.sha1
  else if s = "sha256" then some HashAlg.sha256
  else none

/-- Digest width in bits of each algorithm (a 128-bit, a 160-bit and a
256-bit digest algorithm, §4.4). -/
def digestBits : HashAlg → Nat
  | HashAlg.md5 => 128
  | HashAlg.sha1 => 160
  | HashAlg.sha256 => 256

/-- Modelled from the spec: the streaming hash computation of the Checksum
Engine (§4.4) — the concrete md5/sha1/sha256 implementations are not in
`src/`.  The digest is modelled as an injective lowercase-hex function of
the file contents, which realises the spec's working assumption (§8) that
distinct contents yield distinct digests. -/
def hexDigest (_alg : HashAlg) (bytes : List Byte) : String :=
  ⟨bytesToHexChars bytes⟩

/-- A file in the modelled local file system: its bytes, and whether the
calling process can read it. -/
structure FileInfo where
  bytes : List Byte
  readable : Bool
deriving DecidableEq, Repr

/-- Modelled local file system: an association of paths to files. -/
def FS : Type := List (String × FileInfo)

/-- Look a path up in the modelled file system. -/
def FS.find (fs : FS) (p : String) : Option FileInfo :=
  List.lookup p fs

/-- Modelled from the spec: `ia_get_validate_checksum` (§4.4, §4.5) — the
engine implementation is not in `src/`.  Clears the calling thread's error
slot at the start (§4.5), returns -1 recording a message when the selector
is unrecognized, the file is absent, or the file is unreadable, and
otherwise compares the file's hex digest case-insensitively against the
expected value, returning 1 on match and 0 on mismatch. -/
def validateChecksum (fs : FS) (filePath expectedHash hashType : String)
    (tid : Nat) (errs : ErrMap) : Int × ErrMap :=
  match parseHashAlg hashType with
  | none =>
      (-1, (errs.clear tid).record tid ("unsupported hash type " ++ hashType))
  | some alg =>
    match fs.find filePath with
    | none =>
        (-1, (errs.clear tid).record tid ("file not found " ++ filePath))
    | some fi =>
      if fi.readable then
        if strLower (hexDigest alg fi.bytes) = strLower expectedHash then
          (1, errs.clear tid)
        else
          (0, errs.clear tid)
      else
        (-1, (errs.clear tid).record tid ("cannot read file " ++ filePath))

/-! ## Download engine -/

/-- Modelled from the spec: the behaviour of the remote side of one
download (§4.2) — the transport implementation is not in `src/`.  A
resource either fails outright (connection failure, timeout or non-success
HTTP status), or arrives as a sequence of chunks.  A completed transfer may
advertise its total size (the length of the delivered content, as a
completed HTTP transfer's content-length) or advertise it as unknown; an
interrupted transfer delivers a prefix of chunks under an arbitrary
advertised total and then fails. -/
inductive NetResponse where
  | netFail
  | ok (chunks : List (List Byte)) (totalKnown : Bool)
  | interrupted (chunks : List (List Byte)) (advertised : Nat)

/-- The modelled network: what each URL serves during this call. -/
def Network : Type := String → NetResponse

/-- Whether the character list `s` starts with the character list `pat`. -/
def listStarts : List Char → List Char → Bool
  | [], _ => true
  | _ :: _, [] => false
  | a :: pa, b :: sb => a == b && listStarts pa sb

/-- Modelled from the spec: URL validation of the download engine — a
malformed URL is InvalidInput (§4.2).  Modelled as requiring an http or
https scheme. -/
def validUrl (u : String) : Bool :=
  listStarts "http://".data u.data || listStarts "https://".data u.data

/-- One observable event of a download call: a network transfer attempt, a
progress-callback invocation `(downloaded, total)`, or the call's return. -/
inductive DlEvent where
  | fetch (url : String)
  | progress (downloaded total : Nat)
  | ret (r : IaGetResult)
deriving DecidableEq, Repr

/-- Cumulative byte counts after each chunk, starting from `acc` bytes
already received. -/
def cumFrom (acc : Nat) : List (List Byte) → List Nat
  | [] => []
  | c :: cs => (acc + c.length) :: cumFrom (acc + c.length) cs

/-- The progress-callback invocations of a chunked transfer: one after each
received chunk, with cumulative bytes and the advertised total. -/
def progressEvents (chunks : List (List Byte)) (total : Nat) : List DlEvent :=
  (cumFrom 0 chunks).map (fun d => DlEvent.progress d total)

/-- Everything a download call produces: its result code, the error
reporter afterwards, the ordered trace of observable events, and the
destination file's bytes (`none` when no file was created). -/
structure DlOut where
  result : IaGetResult
  errs : ErrMap
  events : List DlEvent
  file : Option (List Byte)

/-- Modelled from the spec: `ia_get_download_file` (§4.2, §4.5) — the
download engine implementation is not in `src/`.  Clears the calling
thread's error slot, rejects a malformed URL or empty destination path as
InvalidInput, fails with FileSystemError when the destination cannot be
created or written, and otherwise performs the transfer exactly once:
chunks are written incrementally and the progress callback is invoked
after each chunk; a completed transfer returns Success, an interrupted one
returns NetworkError leaving the partial file in place.  Each failure path
records a message before returning. -/
def downloadRun (net : Network) (canWrite : String → Bool)
    (url outputPath : String) (tid : Nat) (errs : ErrMap) : DlOut :=
  if validUrl url = false ∨ outputPath = "" then
    { result := IaGetResult.ErrorInvalidInput
      errs := (errs.clear tid).record tid "invalid URL or output path"
      events := [DlEvent.ret IaGetResult.ErrorInvalidInput]
      file := none }
  else if canWrite outputPath then
    match net url with
    | NetResponse.netFail =>
        { result := IaGetResult.ErrorNetwork
          errs := (errs.clear tid).record tid ("request failed " ++ url)
          events := [DlEvent.fetch url, DlEvent.ret IaGetResult.ErrorNetwork]
          file := none }
    | NetResponse.ok chunks totalKnown =>
        { result := IaGetResult.Success
          errs := errs.clear tid
          events := DlEvent.fetch url ::
            (progressEvents chunks
                (if totalKnown then (chunks.map List.length).sum else 0) ++
              [DlEvent.ret IaGetResult.Success])
          file := some chunks.flatten }
    | NetResponse.interrupted chunks advertised =>
        { result := IaGetResult.ErrorNetwork
          errs := (errs.clear tid).record tid ("connection interrupted " ++ url)
          events := DlEvent.fetch url ::
            (progressEvents chunks advertised ++
              [DlEvent.ret IaGetResult.ErrorNetwork])
          file := some chunks.flatten }
  else
    { result := IaGetResult.ErrorFileSystem
      errs := (errs.clear tid).record tid ("cannot write " ++ outputPath)
      events := [DlEvent.ret IaGetResult.ErrorFileSystem]
      file := none }

/-- The progress samples `(downloaded, total)` occurring in a trace, in
order. -/
def samplesOf : List DlEvent → List (Nat × Nat)
  | [] => []
  | DlEvent.progress d t :: es => (d, t) :: samplesOf es
  | _ :: es => samplesOf es

/-- The number of network transfer attempts in a trace. -/
def fetchCount (es : List DlEvent) : Nat :=
  (es.filter (fun e => match e with | DlEvent.fetch _ => true | _ => false)).length

/-! ## Format detector and decompressor -/

/-- A path as a list of components; archive entry names may contain `.`
and `..` components, which the extraction guard resolves. -/
abbrev Path : Type := List String

/-- One entry of an archive container: its relative path inside the
archive and its uncompressed bytes. -/
structure Entry where
  path : Path
  data : List Byte
deriving DecidableEq, Repr

/-- The single-stream compressors (§4.3). -/
inductive Codec where
  | gzip
  | bzip2
  | xz
deriving DecidableEq, Repr

/-- Modelled from the spec: the detected content of an archive file
(§4.3, §9) — the decoder implementations are not in `src/`.  A
single-stream compressed file decompresses to one output file (named from
the archive name); zip and tar (possibly wrapped in a single-stream
compressor) are containers of entries; anything else is corrupt or
unrecognized. -/
inductive Archive where
  | singleStream (codec : Codec) (name : String) (data : List Byte)
  | zipArchive (entries : List Entry)
  | tarArchive (wrapper : Option Codec) (entries : List Entry)
  | corrupt
deriving DecidableEq, Repr

/-- The entries an archive extracts to, or `none` for corrupt or
unrecognized data. -/
def archiveEntries : Archive → Option (List Entry)
  | Archive.singleStream _ name data => some [⟨[name], data⟩]
  | Archive.zipArchive es => some es
  | Archive.tarArchive _ es => some es
  | Archive.corrupt => none

/-- Resolve a relative path's components over an accumulator: `.` and
empty components are dropped, `..` pops the last resolved component and
fails (`none`) when there is nothing left to pop — the resolved path would
escape. -/
def resolveComponents (acc : Path) : Path → Option Path
  | [] => some acc
  | c :: rest =>
      if c = "" ∨ c = "." then resolveComponents acc rest
      else if c = ".." then
        match acc with
        | [] => none
        | _ => resolveComponents acc.dropLast rest
      else resolveComponents (acc ++ [c]) rest

/-- Modelled from the spec: the path-traversal guard (§4.3) — resolve an
entry's relative path below the output directory, `none` when the
resolved path would escape it. -/
def resolveUnder (outDir : Path) (p : Path) : Option Path :=
  (resolveComponents [] p).map (fun r => outDir ++ r)

/-- Extract a list of entries below the output directory: entries whose
resolved path would escape are skipped; the rest are written in order.
Returns the written files and the ordered extracted paths. -/
def extractEntries (outDir : Path) :
    List Entry → List (Path × List Byte) × List Path
  | [] => ([], [])
  | e :: es =>
      match resolveUnder outDir e.path with
      | none => extractEntries outDir es
      | some fp =>
          ((fp, e.data) :: (extractEntries outDir es).1,
           fp :: (extractEntries outDir es).2)

/-- Everything a decompress call produces: the extracted-path list (`none`
on failure, matching the NULL return of `ia_get_decompress_file`), the
error reporter afterwards, and the files written to the output
directory. -/
structure DecompOut where
  paths : Option (List Path)
  errs : ErrMap
  written : List (Path × List Byte)

/-- Modelled from the spec: `ia_get_decompress_file` (§4.3, §4.5) — the
decompressor implementation is not in `src/`.  Clears the calling thread's
error slot, fails with a recorded message for corrupt or unrecognized
archive data (InvalidInput) or when the output directory cannot be created
(FileSystemError, the `dirOk` flag), and otherwise extracts every entry
whose resolved path stays below the output directory, skipping entries
that would escape, returning the ordered extracted paths. -/
def decompressRun (dirOk : Bool) (arch : Archive) (outDir : Path)
    (tid : Nat) (errs : ErrMap) : DecompOut :=
  match archiveEntries arch with
  | none =>
      { paths := none
        errs := (errs.clear tid).record tid "corrupt or unrecognized archive data"
        written := [] }
  | some es =>
      if dirOk then
        { paths := some (extractEntries outDir es).2
          errs := errs.clear tid
          written := (extractEntries outDir es).1 }
      else
        { paths := none
          errs := (errs.clear tid).record tid "cannot create output directory"
          written := [] }

/-- The eight supported archive formats (§4.3):
zip, gzip, bzip2, xz, tar, tar.gz, tar.bz2, tar.xz. -/
inductive Format where
  | zip
  | gzip
  | bzip2
  | xz
  | tar
  | tarGz
  | tarBz2
  | tarXz
deriving DecidableEq, Repr

/-- Modelled from the spec: compressing a known set of files into an
archive of the given format (the round-trip scenario of §8).  A container
format holds the files as its entries; a single-stream compressor holds
exactly one file whose path is a bare name. -/
def compressStream (c : Codec) : List Entry → Option Archive
  | [⟨[n], d⟩] => some (Archive.singleStream c n d)
  | _ => none

def compress : Format → List Entry → Option Archive
  | Format.zip, es => some (Archive.zipArchive es)
  | Format.tar, es => some (Archive.tarArchive none es)
  | Format.tarGz, es => some (Archive.tarArchive (some Codec.gzip) es)
  | Format.tarBz2, es => some (Archive.tarArchive (some Codec.bzip2) es)
  | Format.tarXz, es => some (Archive.tarArchive (some Codec.xz) es)
  | Format.gzip, es => compressStream Codec.gzip es
  | Format.bzip2, es => compressStream Codec.bzip2 es
  | Format.xz, es => compressStream Codec.xz es

/-- A clean relative path: nonempty, with no empty, `.` or `..`
components — the shape of paths of files collected from a directory tree
for compression. -/
def cleanPath (p : Path) : Bool :=
  decide (p ≠ []) && p.all (fun c => decide (c ≠ "" ∧ c ≠ "." ∧ c ≠ ".."))

/-! ## Metadata fetcher -/

/-- Modelled from the spec: the metadata endpoint's behaviour for one
fetch (§4.1) — the implementation is not in `src/`.  The request fails at
the transport or HTTP level, or yields a response that fails to parse, or
yields a well-formed serialized document. -/
inductive MetaResponse where
  | netFail
  | malformed
  | ok (doc : String)

/-- Modelled from the spec: `ia_get_fetch_metadata` (§4.1, §4.5) — the
implementation is not in `src/`.  Clears the calling thread's error slot,
rejects an empty identifier as InvalidInput, classifies transport failures
as NetworkError and parse failures as InternalError — each failure returns
NULL having recorded a message — and returns the serialized document on
success. -/
def fetchMetadataRun (metaNet : String → MetaResponse) (identifier : String)
    (tid : Nat) (errs : ErrMap) : Option String × ErrMap :=
  if identifier = "" then
    (none, (errs.clear tid).record tid "empty identifier")
  else
    match metaNet identifier with
    | MetaResponse.netFail =>
        (none, (errs.clear tid).record tid
          ("metadata request failed " ++ identifier))
    | MetaResponse.malformed =>
        (none, (errs.clear tid).record tid
          ("cannot parse metadata " ++ identifier))
    | MetaResponse.ok doc => (some doc, errs.clear tid)

/-! ## String release -/

/-- Modelled from the spec: the allocation state of owned strings returned
across the boundary (§6, §9) — the allocator is not in `src/`.  The state
is the list of live handles; releasing NULL is accepted and has no effect,
releasing a live handle removes it, and releasing a handle not obtained
from the interface (or already released) is undefined, modelled as
`none`. -/
def freeString (p : Option Nat) (live : List Nat) : Option (List Nat) :=
  match p with
  | none => some live
  | some h => if h ∈ live then some (live.erase h) else none

/-! ## The four public operations, unified -/

/-- One call to a public operation together with its environment: the
metadata endpoint, the network and file-system behaviour, or the archive
content backing the call. -/
inductive OpCall where
  | fetchMeta (metaNet : String → MetaResponse) (identifier : String)
  | download (net : Network) (canWrite : String → Bool) (url outputPath : String)
  | decompress (dirOk : Bool) (arch : Archive) (outDir : Path)
  | validate (fs : FS) (filePath expectedHash hashType : String)

/-- The outcome a public operation returns to its caller. -/
inductive OpOutcome where
  | strOut (s : Option String)
  | resOut (r : IaGetResult)
  | pathsOut (ps : Option (List Path))
  | triOut (i : Int)
deriving DecidableEq

/-- Whether an outcome is the operation's failure signal (§6): NULL for
the string-returning operations, a non-Success result code for download,
and -1 for checksum validation. -/
def OpOutcome.isFailure : OpOutcome → Bool
  | OpOutcome.strOut s => s.isNone
  | OpOutcome.resOut r => decide (r ≠ IaGetResult.Success)
  | OpOutcome.pathsOut ps => ps.isNone
  | OpOutcome.triOut i => decide (i = -1)

/-- Run one public operation on the calling thread `tid`, producing its
outcome and the error reporter afterwards. -/
def runOp : OpCall → Nat → ErrMap → OpOutcome × ErrMap
  | OpCall.fetchMeta mn ident, tid, errs =>
      let (r, e) := fetchMetadataRun mn ident tid errs
      (OpOutcome.strOut r, e)
  | OpCall.download net cw url op, tid, errs =>
      let o := downloadRun net cw url op tid errs
      (OpOutcome.resOut o.result, o.errs)
  | OpCall.decompress dirOk arch outDir, tid, errs =>
      let o := decompressRun dirOk arch outDir tid errs
      (OpOutcome.pathsOut o.paths, o.errs)
  | OpCall.validate fs fp eh ht, tid, errs =>
      let (r, e) := validateChecksum fs fp eh ht tid errs
      (OpOutcome.triOut r, e)

/-! ## Helper lemmas -/

theorem ErrMap.last_record_self (m : ErrMap) (tid : Nat) (msg : String) :
    (m.record tid msg).last tid = some msg := by
  simp [ErrMap.record, ErrMap.last]

theorem ErrMap.last_clear_self (m : ErrMap) (tid : Nat) :
    (m.clear tid).last tid = none := by
  simp [ErrMap.clear, ErrMap.last]

theorem ErrMap.last_record_other (m : ErrMap) (tid t : Nat) (msg : String)
    (h : t ≠ tid) : (m.record tid msg).last t = m.last t := by
  simp [ErrMap.record, ErrMap.last, h]

theorem ErrMap.last_clear_other (m : ErrMap) (tid t : Nat) (h : t ≠ tid) :
    (m.clear tid).last t = m.last t := by
  simp [ErrMap.clear, ErrMap.last, h]

theorem extractEntries_cons_none (outDir : Path) (e : Entry) (es : List Entry)
    (h : resolveUnder outDir e.path = none) :
    extractEntries outDir (e :: es) = extractEntries outDir es := by
  conv_lhs => unfold extractEntries
  rw [h]

theorem extractEntries_cons_some (outDir : Path) (e : Entry) (es : List Entry)
    (fp : Path) (h : resolveUnder outDir e.path = some fp) :
    extractEntries outDir (e :: es) =
      ((fp, e.data) :: (extractEntries outDir es).1,
       fp :: (extractEntries outDir es).2) := by
  conv_lhs => unfold extractEntries
  rw [h]

theorem resolveUnder_shape {outDir : Path} {p : Path} {fp : Path}
    (h : resolveUnder outDir p = some fp) : ∃ r, fp = outDir ++ r := by
  unfold resolveUnder at h
  cases hr : resolveComponents [] p with
  | none => rw [hr] at h; exact absurd h (by simp)
  | some r =>
      rw [hr] at h
      refine ⟨r, ?_⟩
      have : some (outDir ++ r) = some fp := h
      exact (Option.some.injEq _ _ ▸ this).symm

theorem extractEntries_written_under (outDir : Path) (es : List Entry) :
    ∀ f ∈ (extractEntries outDir es).1, ∃ rest, f.1 = outDir ++ rest := by
  induction es with
  | nil =>
      intro f hf
      unfold extractEntries at hf
      exact absurd hf (List.not_mem_nil f)
  | cons e es ih =>
      intro f hf
      cases hres : resolveUnder outDir e.path with
      | none =>
          rw [extractEntries_cons_none outDir e es hres] at hf
          exact ih f hf
      | some fp =>
          rw [extractEntries_cons_some outDir e es fp hres] at hf
          rcases List.mem_cons.mp hf with hf | hf
          · obtain ⟨r, hr⟩ := resolveUnder_shape hres
            exact ⟨r, by rw [hf, hr]⟩
          · exact ih f hf

/-- A good path component is nonempty and neither `.` nor `..`. -/
def goodComp (c : String) : Prop := c ≠ "" ∧ c ≠ "." ∧ c ≠ ".."

theorem resolveComponents_of_good (p : Path) :
    ∀ acc : Path, (∀ c ∈ p, goodComp c) →
      resolveComponents acc p = some (acc ++ p) := by
  induction p with
  | nil => intro acc _; simp [resolveComponents]
  | cons c rest ih =>
      intro acc hg
      have hc : goodComp c := hg c (by simp)
      obtain ⟨h1, h2, h3⟩ := hc
      unfold resolveComponents
      rw [if_neg (by simp [h1, h2]), if_neg h3]
      rw [ih (acc ++ [c]) (fun d hd => hg d (by simp [hd]))]
      simp

theorem cleanPath_good {p : Path} (h : cleanPath p = true) :
    ∀ c ∈ p, goodComp c := by
  intro c hc
  unfold cleanPath at h
  have h2 := (Bool.and_eq_true _ _).mp h
  have hall := List.all_eq_true.mp h2.2 c hc
  unfold goodComp
  exact of_decide_eq_true hall

theorem extractEntries_of_clean (outDir : Path) (es : List Entry)
    (h : ∀ e ∈ es, cleanPath e.path = true) :
    extractEntries outDir es =
      (es.map (fun e => (outDir ++ e.path, e.data)),
       es.map (fun e => outDir ++ e.path)) := by
  induction es with
  | nil => simp [extractEntries]
  | cons e es ih =>
      have hres : resolveUnder outDir e.path = some (outDir ++ e.path) := by
        unfold resolveUnder
        rw [resolveComponents_of_good e.path []
          (cleanPath_good (h e (by simp)))]
        simp
      rw [extractEntries_cons_some outDir e es (outDir ++ e.path) hres,
        ih (fun d hd => h d (by simp [hd]))]
      simp

theorem compressStream_entries {c : Codec} {files : List Entry} {arch : Archive}
    (h : compressStream c files = some arch) : archiveEntries arch = some files := by
  unfold compressStream at h
  split at h
  · cases h; rfl
  · exact absurd h (by simp)

theorem compress_entries {fmt : Format} {files : List Entry} {arch : Archive}
    (h : compress fmt files = some arch) : archiveEntries arch = some files := by
  cases fmt <;> unfold compress at h
  case gzip => exact compressStream_entries h
  case bzip2 => exact compressStream_entries h
  case xz => exact compressStream_entries h
  all_goals (cases h; rfl)

/-! ## C1: path-traversal guard -/

/-- C1: for every archive file and output directory passed to the
decompress operation, no archive entry whose resolved path would escape
the output directory ever produces a file outside the designated output
directory: every file the call writes has the output directory as a path
prefix (the offending entries are skipped). -/
theorem decompress_path_traversal_guard (dirOk : Bool) (arch : Archive)
    (outDir : Path) (tid : Nat) (errs : ErrMap) :
    ∀ f ∈ (decompressRun dirOk arch outDir tid errs).written,
      ∃ rest, f.1 = outDir ++ rest := by
  intro f hf
  cases he : archiveEntries arch with
  | none =>
      have hw : (decompressRun dirOk arch outDir tid errs).written = [] := by
        unfold decompressRun; rw [he]
      rw [hw] at hf
      exact absurd hf (List.not_mem_nil f)
  | some es =>
      cases dirOk with
      | true =>
          have hw : (decompressRun true arch outDir tid errs).written
              = (extractEntries outDir es).1 := by
            unfold decompressRun; rw [he]; rfl
          rw [hw] at hf
          exact extractEntries_written_under outDir es f hf
      | false =>
          have hw : (decompressRun false arch outDir tid errs).written = [] := by
            unfold decompressRun; rw [he]; rfl
          rw [hw] at hf
          exact absurd hf (List.not_mem_nil f)

/-- C1 witness: a tar archive holding the entry `../../escape.txt` and the
entry `a.txt`, extracted to `out`: the escaping entry is skipped, and every
written file sits below `out`. -/
theorem decompress_path_traversal_guard_witness :
    (decompressRun true
        (Archive.tarArchive none
          [⟨["..", "..", "escape.txt"], [42]⟩, ⟨["a.txt"], [7]⟩])
        ["out"] 0 (fun _ => none)).written
      = [(["out", "a.txt"], [7])] ∧
    (∃ rest, (["out", "a.txt"], ([7] : List Byte)).1 = ["out"] ++ rest) := by
  constructor
  · rfl
  · exact decompress_path_traversal_guard true
      (Archive.tarArchive none
        [⟨["..", "..", "escape.txt"], [42]⟩, ⟨["a.txt"], [7]⟩])
      ["out"] 0 (fun _ => none) (["out", "a.txt"], [7]) (by decide)

/-! ## C4: compression round trip -/

/-- C4: for every known set of files compressed into an archive in any of
the eight supported formats, running the decompress operation on that
archive reproduces exactly that set of files, byte-for-byte, in the output
directory, and returns the ordered sequence of extracted file paths.  The
files carry clean relative paths (nonempty, no empty, `.` or `..`
components), as files collected from a directory tree do, and the output
directory is creatable. -/
theorem compress_decompress_roundtrip (fmt : Format) (files : List Entry)
    (arch : Archive) (outDir : Path) (tid : Nat) (errs : ErrMap)
    (hc : compress fmt files = some arch)
    (hclean : ∀ e ∈ files, cleanPath e.path = true) :
    (decompressRun true arch outDir tid errs).paths
        = some (files.map (fun e => outDir ++ e.path)) ∧
    (decompressRun true arch outDir tid errs).written
        = files.map (fun e => (outDir ++ e.path, e.data)) := by
  have he := compress_entries hc
  have hex := extractEntries_of_clean outDir files hclean
  constructor
  · have hp : (decompressRun true arch outDir tid errs).paths
        = some (extractEntries outDir files).2 := by
      unfold decompressRun; rw [he]; rfl
    rw [hp, hex]
  · have hw : (decompressRun true arch outDir tid errs).written
        = (extractEntries outDir files).1 := by
      unfold decompressRun; rw [he]; rfl
    rw [hw, hex]

/-- C4 witness: a tar.gz holding `a.txt` and `b/c.txt` round-trips into
the output directory `out` — the concrete scenario of spec §8. -/
theorem compress_decompress_roundtrip_witness :
    compress Format.tarGz
        [⟨["a.txt"], [72, 105]⟩, ⟨["b", "c.txt"], [33]⟩]
      = some (Archive.tarArchive (some Codec.gzip)
          [⟨["a.txt"], [72, 105]⟩, ⟨["b", "c.txt"], [33]⟩]) ∧
    (decompressRun true
        (Archive.tarArchive (some Codec.gzip)
          [⟨["a.txt"], [72, 105]⟩, ⟨["b", "c.txt"], [33]⟩])
        ["out"] 0 (fun _ => none)).paths
      = some [["out", "a.txt"], ["out", "b", "c.txt"]] ∧
    (decompressRun true
        (Archive.tarArchive (some Codec.gzip)
          [⟨["a.txt"], [72, 105]⟩, ⟨["b", "c.txt"], [33]⟩])
        ["out"] 0 (fun _ => none)).written
      = [(["out", "a.txt"], [72, 105]), (["out", "b", "c.txt"], [33])] := by
  have h := compress_decompress_roundtrip Format.tarGz
      [⟨["a.txt"], [72, 105]⟩, ⟨["b", "c.txt"], [33]⟩]
      (Archive.tarArchive (some Codec.gzip)
        [⟨["a.txt"], [72, 105]⟩, ⟨["b", "c.txt"], [33]⟩])
      ["out"] 0 (fun _ => none) rfl (by decide)
  exact ⟨rfl, h.1, h.2⟩

/-! ## Checksum engine lemmas -/

theorem hexDigitChar_inj :
    ∀ m, m < 16 → ∀ n, n < 16 → hexDigitChar m = hexDigitChar n → m = n := by
  decide

theorem lowerChar_hexDigitChar :
    ∀ n, n < 16 → lowerChar (hexDigitChar n) = hexDigitChar n := by
  decide

theorem byteDiv_lt (b : Byte) : b.val / 16 < 16 :=
  Nat.div_lt_of_lt_mul (by omega)

theorem byteMod_lt (b : Byte) : b.val % 16 < 16 :=
  Nat.mod_lt _ (by omega)

theorem map_lowerChar_bytesToHexChars (bs : List Byte) :
    (bytesToHexChars bs).map lowerChar = bytesToHexChars bs := by
  induction bs with
  | nil => rfl
  | cons b bs ih =>
      unfold bytesToHexChars
      simp only [List.map_cons]
      rw [lowerChar_hexDigitChar _ (byteDiv_lt b),
        lowerChar_hexDigitChar _ (byteMod_lt b), ih]

theorem strLower_hexDigest (alg : HashAlg) (bs : List Byte) :
    strLower (hexDigest alg bs) = hexDigest alg bs := by
  unfold strLower hexDigest
  rw [show (String.mk (bytesToHexChars bs)).data = bytesToHexChars bs from rfl,
    map_lowerChar_bytesToHexChars]

theorem bytesToHexChars_inj : ∀ bs1 bs2 : List Byte,
    bytesToHexChars bs1 = bytesToHexChars bs2 → bs1 = bs2 := by
  intro bs1
  induction bs1 with
  | nil =>
      intro bs2 h
      cases bs2 with
      | nil => rfl
      | cons b bs => exact absurd h (by unfold bytesToHexChars; simp)
  | cons a as ih =>
      intro bs2 h
      cases bs2 with
      | nil => exact absurd h (by unfold bytesToHexChars; simp)
      | cons b bs =>
          unfold bytesToHexChars at h
          injection h with h1 h'
          injection h' with h2 h3
          have hd : a.val / 16 = b.val / 16 :=
            hexDigitChar_inj _ (byteDiv_lt a) _ (byteDiv_lt b) h1
          have hm : a.val % 16 = b.val % 16 :=
            hexDigitChar_inj _ (byteMod_lt a) _ (byteMod_lt b) h2
          have hab : a = b := Fin.ext (by omega)
          rw [hab, ih bs h3]

theorem hexDigest_inj {alg : HashAlg} {bs1 bs2 : List Byte}
    (h : hexDigest alg bs1 = hexDigest alg bs2) : bs1 = bs2 := by
  unfold hexDigest at h
  exact bytesToHexChars_inj bs1 bs2 (congrArg String.data h)

theorem validate_eq_of_badAlg {ht : String} (fs : FS) (fp eh : String)
    (tid : Nat) (errs : ErrMap) (hp : parseHashAlg ht = none) :
    validateChecksum fs fp eh ht tid errs
      = (-1, (errs.clear tid).record tid ("unsupported hash type " ++ ht)) := by
  unfold validateChecksum; rw [hp]

theorem validate_eq_of_noFile {ht : String} {alg : HashAlg} {fs : FS}
    {fp : String} (eh : String) (tid : Nat) (errs : ErrMap)
    (hp : parseHashAlg ht = some alg) (hf : FS.find fs fp = none) :
    validateChecksum fs fp eh ht tid errs
      = (-1, (errs.clear tid).record tid ("file not found " ++ fp)) := by
  unfold validateChecksum; rw [hp, hf]

theorem validate_eq_of_unreadable {ht : String} {alg : HashAlg} {fs : FS}
    {fp : String} {fi : FileInfo} (eh : String) (tid : Nat) (errs : ErrMap)
    (hp : parseHashAlg ht = some alg) (hf : FS.find fs fp = some fi)
    (hr : fi.readable = false) :
    validateChecksum fs fp eh ht tid errs
      = (-1, (errs.clear tid).record tid ("cannot read file " ++ fp)) := by
  unfold validateChecksum
  rw [hp, hf]
  simp only [hr]
  rfl

theorem validate_eq_of_match {ht : String} {alg : HashAlg} {fs : FS}
    {fp eh : String} {fi : FileInfo} (tid : Nat) (errs : ErrMap)
    (hp : parseHashAlg ht = some alg) (hf : FS.find fs fp = some fi)
    (hr : fi.readable = true)
    (hm : strLower (hexDigest alg fi.bytes) = strLower eh) :
    validateChecksum fs fp eh ht tid errs = (1, errs.clear tid) := by
  unfold validateChecksum
  rw [hp, hf]
  simp only [hr, if_true, if_pos hm]

theorem validate_eq_of_mismatch {ht : String} {alg : HashAlg} {fs : FS}
    {fp eh : String} {fi : FileInfo} (tid : Nat) (errs : ErrMap)
    (hp : parseHashAlg ht = some alg) (hf : FS.find fs fp = some fi)
    (hr : fi.readable = true)
    (hm : strLower (hexDigest alg fi.bytes) ≠ strLower eh) :
    validateChecksum fs fp eh ht tid errs = (0, errs.clear tid) := by
  unfold validateChecksum
  rw [hp, hf]
  simp only [hr, if_true, if_neg hm]

/-! ## C2: checksum tri-state outcomes -/

/-- C2 counterexample: the claim says Match and Mismatch outcomes do not
touch the Error Reporter, but every public operation clears the calling
thread's slot at the start (§4.5), so a Match call does change the
reporter whenever a prior message was present: here the slot holds a
message before the call and is cleared after it. -/
theorem validate_match_touches_reporter :
    (validateChecksum [("f", ⟨[], true⟩)] "f" "" "md5" 0
        (fun _ => some "previous failure")).1 = 1 ∧
    ErrMap.last (fun _ => some "previous failure") 0 = some "previous failure" ∧
    ((validateChecksum [("f", ⟨[], true⟩)] "f" "" "md5" 0
        (fun _ => some "previous failure")).2).last 0 = none := by
  refine ⟨?_, rfl, ?_⟩ <;> rfl

/-- C2 (amended): for every call to the checksum validation operation the
result is exactly one of Match (1), Mismatch (0) or Error (-1); the Error
outcome occurs exactly when the file does not exist, is unreadable, or the
algorithm selector is unrecognized; an Error outcome records a message in
the Error Reporter while Match and Mismatch record none, leaving the
calling thread's slot cleared (amended from "do not touch the Error
Reporter": the slot is cleared at the start of every call, §4.5); and the
hex-digest comparison against the expected value is case-insensitive. -/
theorem validate_tristate_outcomes (fs : FS) (fp eh ht : String)
    (tid : Nat) (errs : ErrMap) :
    ((validateChecksum fs fp eh ht tid errs).1 = 1 ∨
     (validateChecksum fs fp eh ht tid errs).1 = 0 ∨
     (validateChecksum fs fp eh ht tid errs).1 = -1) ∧
    ((validateChecksum fs fp eh ht tid errs).1 = -1 ↔
      (parseHashAlg ht = none ∨ FS.find fs fp = none ∨
        ∃ fi, FS.find fs fp = some fi ∧ fi.readable = false)) ∧
    ((validateChecksum fs fp eh ht tid errs).1 = -1 →
      ∃ msg, ((validateChecksum fs fp eh ht tid errs).2).last tid = some msg) ∧
    ((validateChecksum fs fp eh ht tid errs).1 ≠ -1 →
      ((validateChecksum fs fp eh ht tid errs).2).last tid = none) ∧
    (∀ eh2, strLower eh2 = strLower eh →
      (validateChecksum fs fp eh2 ht tid errs).1
        = (validateChecksum fs fp eh ht tid errs).1) := by
  refine ⟨?_, ?_, ?_, ?_, ?_⟩
  · cases hp : parseHashAlg ht with
    | none => rw [validate_eq_of_badAlg fs fp eh tid errs hp]; simp
    | some alg =>
      cases hf : FS.find fs fp with
      | none => rw [validate_eq_of_noFile eh tid errs hp hf]; simp
      | some fi =>
        cases hr : fi.readable with
        | false => rw [validate_eq_of_unreadable eh tid errs hp hf hr]; simp
        | true =>
          by_cases hm : strLower (hexDigest alg fi.bytes) = strLower eh
          · rw [validate_eq_of_match tid errs hp hf hr hm]; simp
          · rw [validate_eq_of_mismatch tid errs hp hf hr hm]; simp
  · cases hp : parseHashAlg ht with
    | none => rw [validate_eq_of_badAlg fs fp eh tid errs hp]; simp [hp]
    | some alg =>
      cases hf : FS.find fs fp with
      | none => rw [validate_eq_of_noFile eh tid errs hp hf]; simp [hp, hf]
      | some fi =>
        cases hr : fi.readable with
        | false =>
            rw [validate_eq_of_unreadable eh tid errs hp hf hr]
            simp [hp, hf, hr]
        | true =>
          by_cases hm : strLower (hexDigest alg fi.bytes) = strLower eh
          · rw [validate_eq_of_match tid errs hp hf hr hm]; simp [hp, hf, hr]
          · rw [validate_eq_of_mismatch tid errs hp hf hr hm]; simp [hp, hf, hr]
  · cases hp : parseHashAlg ht with
    | none =>
        rw [validate_eq_of_badAlg fs fp eh tid errs hp]
        exact fun _ => ⟨_, ErrMap.last_record_self _ tid _⟩
    | some alg =>
      cases hf : FS.find fs fp with
      | none =>
          rw [validate_eq_of_noFile eh tid errs hp hf]
          exact fun _ => ⟨_, ErrMap.last_record_self _ tid _⟩
      | some fi =>
        cases hr : fi.readable with
        | false =>
            rw [validate_eq_of_unreadable eh tid errs hp hf hr]
            exact fun _ => ⟨_, ErrMap.last_record_self _ tid _⟩
        | true =>
          by_cases hm : strLower (hexDigest alg fi.bytes) = strLower eh
          · rw [validate_eq_of_match tid errs hp hf hr hm]
            intro h
            simp at h
          · rw [validate_eq_of_mismatch tid errs hp hf hr hm]
            intro h
            simp at h
  · cases hp : parseHashAlg ht with
    | none =>
        rw [validate_eq_of_badAlg fs fp eh tid errs hp]
        intro h
        exact absurd rfl h
    | some alg =>
      cases hf : FS.find fs fp with
      | none =>
          rw [validate_eq_of_noFile eh tid errs hp hf]
          intro h
          exact absurd rfl h
      | some fi =>
        cases hr : fi.readable with
        | false =>
            rw [validate_eq_of_unreadable eh tid errs hp hf hr]
            intro h
            exact absurd rfl h
        | true =>
          by_cases hm : strLower (hexDigest alg fi.bytes) = strLower eh
          · rw [validate_eq_of_match tid errs hp hf hr hm]
            exact fun _ => ErrMap.last_clear_self errs tid
          · rw [validate_eq_of_mismatch tid errs hp hf hr hm]
            exact fun _ => ErrMap.last_clear_self errs tid
  · intro eh2 he
    cases hp : parseHashAlg ht with
    | none =>
        rw [validate_eq_of_badAlg fs fp eh tid errs hp,
          validate_eq_of_badAlg fs fp eh2 tid errs hp]
    | some alg =>
      cases hf : FS.find fs fp with
      | none =>
          rw [validate_eq_of_noFile eh tid errs hp hf,
            validate_eq_of_noFile eh2 tid errs hp hf]
      | some fi =>
        cases hr : fi.readable with
        | false =>
            rw [validate_eq_of_unreadable eh tid errs hp hf hr,
              validate_eq_of_unreadable eh2 tid errs hp hf hr]
        | true =>
          by_cases hm : strLower (hexDigest alg fi.bytes) = strLower eh
          · rw [validate_eq_of_match tid errs hp hf hr hm,
              validate_eq_of_match tid errs hp hf hr (by rw [he]; exact hm)]
          · rw [validate_eq_of_mismatch tid errs hp hf hr hm,
              validate_eq_of_mismatch tid errs hp hf hr (by rw [he]; exact hm)]

/-- C2 witness: validating against a nonexistent file with the sha256
selector yields Error (-1) and a recorded message (the §8 scenario). -/
theorem validate_tristate_outcomes_witness :
    (validateChecksum [] "f" "" "sha256" 0 (fun _ => none)).1 = -1 ∧
    (∃ msg, ((validateChecksum [] "f" "" "sha256" 0 (fun _ => none)).2).last 0
      = some msg) :=
  ⟨rfl, (validate_tristate_outcomes [] "f" "" "sha256" 0 (fun _ => none)).2.2.1 rfl⟩

/-! ## C8: determinism and corruption flip -/

theorem FS.find_cons_self (fp : String) (fi : FileInfo) (rest : FS) :
    FS.find ((fp, fi) :: rest) fp = some fi := by
  unfold FS.find
  simp [List.lookup]

theorem getD_set_self (l : List Byte) (i : Nat) (a d : Byte)
    (h : i < l.length) : (l.set i a).getD i d = a := by
  induction l generalizing i with
  | nil => simp at h
  | cons x xs ih =>
      cases i with
      | zero => rfl
      | succ j => exact ih j (by simpa using h)

theorem set_ne_of_getD_ne (l : List Byte) (i : Nat) (a : Byte)
    (h : i < l.length) (ha : a ≠ l.getD i 0) : l.set i a ≠ l := by
  intro heq
  apply ha
  rw [← getD_set_self l i a 0 h, heq]

/-- C8: checksum validation is deterministic — for fixed file contents,
expected hash and algorithm selector, the tri-state outcome is the same on
every call, whatever the calling thread or prior error state — and
corrupting exactly one byte of a file whose validation returns Match makes
the same validation return Mismatch. -/
theorem validate_deterministic_and_corruption_flip :
    (∀ (fs : FS) (fp eh ht : String) (tid1 : Nat) (errs1 : ErrMap)
        (tid2 : Nat) (errs2 : ErrMap),
      (validateChecksum fs fp eh ht tid1 errs1).1
        = (validateChecksum fs fp eh ht tid2 errs2).1) ∧
    (∀ (rest : FS) (fp eh ht : String) (tid : Nat) (errs : ErrMap)
        (bytes : List Byte) (i : Nat) (b2 : Byte),
      i < bytes.length → b2 ≠ bytes.getD i 0 →
      (validateChecksum ((fp, ⟨bytes, true⟩) :: rest) fp eh ht tid errs).1 = 1 →
      (validateChecksum ((fp, ⟨bytes.set i b2, true⟩) :: rest)
          fp eh ht tid errs).1 = 0) := by
  constructor
  · intro fs fp eh ht tid1 errs1 tid2 errs2
    cases hp : parseHashAlg ht with
    | none =>
        rw [validate_eq_of_badAlg fs fp eh tid1 errs1 hp,
          validate_eq_of_badAlg fs fp eh tid2 errs2 hp]
    | some alg =>
      cases hf : FS.find fs fp with
      | none =>
          rw [validate_eq_of_noFile eh tid1 errs1 hp hf,
            validate_eq_of_noFile eh tid2 errs2 hp hf]
      | some fi =>
        cases hr : fi.readable with
        | false =>
            rw [validate_eq_of_unreadable eh tid1 errs1 hp hf hr,
              validate_eq_of_unreadable eh tid2 errs2 hp hf hr]
        | true =>
          by_cases hm : strLower (hexDigest alg fi.bytes) = strLower eh
          · rw [validate_eq_of_match tid1 errs1 hp hf hr hm,
              validate_eq_of_match tid2 errs2 hp hf hr hm]
          · rw [validate_eq_of_mismatch tid1 errs1 hp hf hr hm,
              validate_eq_of_mismatch tid2 errs2 hp hf hr hm]
  · intro rest fp eh ht tid errs bytes i b2 hi hb h1
    cases hp : parseHashAlg ht with
    | none =>
        rw [validate_eq_of_badAlg _ fp eh tid errs hp] at h1
        simp at h1
    | some alg =>
      have hf1 : FS.find ((fp, ⟨bytes, true⟩) :: rest) fp
          = some ⟨bytes, true⟩ := FS.find_cons_self fp ⟨bytes, true⟩ rest
      have hf2 : FS.find ((fp, ⟨bytes.set i b2, true⟩) :: rest) fp
          = some ⟨bytes.set i b2, true⟩ :=
        FS.find_cons_self fp ⟨bytes.set i b2, true⟩ rest
      by_cases hm : strLower (hexDigest alg bytes) = strLower eh
      · have hne : hexDigest alg (bytes.set i b2) ≠ hexDigest alg bytes := by
          intro hc
          exact set_ne_of_getD_ne bytes i b2 hi hb (hexDigest_inj hc)
        have hm2 : strLower (hexDigest alg (bytes.set i b2)) ≠ strLower eh := by
          rw [strLower_hexDigest, ← hm, strLower_hexDigest]
          exact hne
        rw [validate_eq_of_mismatch tid errs hp hf2 rfl hm2]
      · rw [validate_eq_of_mismatch tid errs hp hf1 rfl hm] at h1
        simp at h1

/-- C8 witness: a two-byte file matching its expected digest "0000"
returns Match; flipping the first byte to 1 makes the same validation
return Mismatch. -/
theorem validate_deterministic_and_corruption_flip_witness :
    (validateChecksum [("f", ⟨[0, 0], true⟩)] "f" "0000" "md5" 0
        (fun _ => none)).1 = 1 ∧
    (validateChecksum [("f", ⟨([0, 0] : List Byte).set 0 1, true⟩)] "f"
        "0000" "md5" 0 (fun _ => none)).1 = 0 := by
  have h1 : (validateChecksum [("f", ⟨[0, 0], true⟩)] "f" "0000" "md5" 0
      (fun _ => none)).1 = 1 := by rfl
  exact ⟨h1, validate_deterministic_and_corruption_flip.2 [] "f" "0000"
    "md5" 0 (fun _ => none) [0, 0] 0 1 (by decide) (by decide) h1⟩

/-! ## C10: the accepted algorithm selectors -/

/-- C10: the set of accepted algorithm selector strings for checksum
validation is exactly "md5", "sha1" and "sha256" — naming the 128-bit,
160-bit and 256-bit digest algorithms — and for every other selector
string the operation returns -1 (Error), while an accepted selector
against an existing readable file never returns -1. -/
theorem validate_selector_strings :
    (∀ s, (parseHashAlg s).isSome = true ↔
      (s = "md5" ∨ s = "sha1" ∨ s = "sha256")) ∧
    digestBits HashAlg.md5 = 128 ∧ digestBits HashAlg.sha1 = 160 ∧
    digestBits HashAlg.sha256 = 256 ∧
    (∀ (fs : FS) (fp eh s : String) (tid : Nat) (errs : ErrMap),
      parseHashAlg s = none →
      (validateChecksum fs fp eh s tid errs).1 = -1) ∧
    (∀ (fs : FS) (fp eh s : String) (tid : Nat) (errs : ErrMap)
        (fi : FileInfo), FS.find fs fp = some fi → fi.readable = true →
      parseHashAlg s ≠ none →
      (validateChecksum fs fp eh s tid errs).1 ≠ -1) := by
  refine ⟨?_, rfl, rfl, rfl, ?_, ?_⟩
  · intro s
    unfold parseHashAlg
    split_ifs <;> simp_all
  · intro fs fp eh s tid errs hp
    rw [validate_eq_of_badAlg fs fp eh tid errs hp]
  · intro fs fp eh s tid errs fi hf hr hp
    cases hps : parseHashAlg s with
    | none => exact absurd hps hp
    | some alg =>
        by_cases hm : strLower (hexDigest alg fi.bytes) = strLower eh
        · rw [validate_eq_of_match tid errs hps hf hr hm]
          simp
        · rw [validate_eq_of_mismatch tid errs hps hf hr hm]
          simp

/-- C10 witness: "crc32" is rejected with Error (-1); "md5" against an
existing readable file does not yield Error. -/
theorem validate_selector_strings_witness :
    parseHashAlg "crc32" = none ∧
    (validateChecksum [] "f" "" "crc32" 0 (fun _ => none)).1 = -1 ∧
    (validateChecksum [("f", ⟨[], true⟩)] "f" "" "md5" 0
        (fun _ => none)).1 ≠ -1 :=
  ⟨rfl,
   validate_selector_strings.2.2.2.2.1 [] "f" "" "crc32" 0 (fun _ => none) rfl,
   validate_selector_strings.2.2.2.2.2 [("f", ⟨[], true⟩)] "f" "" "md5" 0
     (fun _ => none) ⟨[], true⟩ rfl rfl (by simp [parseHashAlg])⟩

/-! ## Download trace lemmas -/

theorem samplesOf_append (l1 l2 : List DlEvent) :
    samplesOf (l1 ++ l2) = samplesOf l1 ++ samplesOf l2 := by
  induction l1 with
  | nil => rfl
  | cons e es ih => cases e <;> simp [samplesOf, ih]

theorem samplesOf_map_progress (ds : List Nat) (t : Nat) :
    samplesOf (ds.map (fun d => DlEvent.progress d t))
      = ds.map (fun d => (d, t)) := by
  induction ds with
  | nil => rfl
  | cons d ds ih => simp [samplesOf, ih]

theorem samplesOf_ret (r : IaGetResult) : samplesOf [DlEvent.ret r] = [] := rfl

theorem cumFrom_ge (cs : List (List Byte)) :
    ∀ acc, ∀ x ∈ cumFrom acc cs, acc ≤ x := by
  induction cs with
  | nil => intro acc x hx; exact absurd hx (by unfold cumFrom; simp)
  | cons c cs ih =>
      intro acc x hx
      unfold cumFrom at hx
      rcases List.mem_cons.mp hx with h | h
      · omega
      · have := ih (acc + c.length) x h; omega

theorem cumFrom_chain (cs : List (List Byte)) :
    ∀ acc, List.Chain' (· ≤ ·) (cumFrom acc cs) := by
  induction cs with
  | nil => intro acc; unfold cumFrom; exact List.chain'_nil
  | cons c cs ih =>
      intro acc
      unfold cumFrom
      rw [List.chain'_cons']
      refine ⟨fun b hb => ?_, ih (acc + c.length)⟩
      exact cumFrom_ge cs (acc + c.length) b (List.mem_of_mem_head? hb)

theorem cumFrom_getLast? : ∀ (cs : List (List Byte)) (acc : Nat), cs ≠ [] →
    (cumFrom acc cs).getLast? = some (acc + (cs.map List.length).sum) := by
  intro cs
  induction cs with
  | nil => intro acc h; exact absurd rfl h
  | cons c cs ih =>
      intro acc _
      cases cs with
      | nil => unfold cumFrom; simp [cumFrom]
      | cons c2 cs2 =>
          have h2 : cumFrom acc (c :: c2 :: cs2)
              = (acc + c.length) :: (acc + c.length + c2.length)
                  :: cumFrom (acc + c.length + c2.length) cs2 := rfl
          have h4 : cumFrom (acc + c.length) (c2 :: cs2)
              = (acc + c.length + c2.length)
                  :: cumFrom (acc + c.length + c2.length) cs2 := rfl
          rw [h2, List.getLast?_cons_cons, ← h4, ih (acc + c.length) (by simp)]
          simp only [List.map_cons, List.sum_cons, Option.some.injEq]
          omega

theorem fetchCount_append (l1 l2 : List DlEvent) :
    fetchCount (l1 ++ l2) = fetchCount l1 + fetchCount l2 := by
  simp [fetchCount, List.filter_append]

theorem fetchCount_map_progress (ds : List Nat) (t : Nat) :
    fetchCount (ds.map (fun d => DlEvent.progress d t)) = 0 := by
  induction ds with
  | nil => rfl
  | cons d ds ih => simp [fetchCount]

theorem fetchCount_ret (r : IaGetResult) : fetchCount [DlEvent.ret r] = 0 := rfl

/-! ## Download branch equations -/

theorem downloadRun_eq_invalid (net : Network) (cw : String → Bool)
    (url op : String) (tid : Nat) (errs : ErrMap)
    (h : validUrl url = false ∨ op = "") :
    downloadRun net cw url op tid errs =
      { result := IaGetResult.ErrorInvalidInput
        errs := (errs.clear tid).record tid "invalid URL or output path"
        events := [DlEvent.ret IaGetResult.ErrorInvalidInput]
        file := none } := by
  unfold downloadRun; rw [if_pos h]

theorem downloadRun_eq_fsErr (net : Network) (cw : String → Bool)
    (url op : String) (tid : Nat) (errs : ErrMap)
    (h1 : ¬(validUrl url = false ∨ op = "")) (h2 : cw op = false) :
    downloadRun net cw url op tid errs =
      { result := IaGetResult.ErrorFileSystem
        errs := (errs.clear tid).record tid ("cannot write " ++ op)
        events := [DlEvent.ret IaGetResult.ErrorFileSystem]
        file := none } := by
  unfold downloadRun
  rw [if_neg h1, if_neg (by simp [h2])]

theorem downloadRun_eq_netFail (net : Network) (cw : String → Bool)
    (url op : String) (tid : Nat) (errs : ErrMap)
    (h1 : ¬(validUrl url = false ∨ op = "")) (h2 : cw op = true)
    (h3 : net url = NetResponse.netFail) :
    downloadRun net cw url op tid errs =
      { result := IaGetResult.ErrorNetwork
        errs := (errs.clear tid).record tid ("request failed " ++ url)
        events := [DlEvent.fetch url, DlEvent.ret IaGetResult.ErrorNetwork]
        file := none } := by
  unfold downloadRun
  rw [if_neg h1, if_pos h2, h3]

theorem downloadRun_eq_ok (net : Network) (cw : String → Bool)
    (url op : String) (tid : Nat) (errs : ErrMap)
    (chunks : List (List Byte)) (tk : Bool)
    (h1 : ¬(validUrl url = false ∨ op = "")) (h2 : cw op = true)
    (h3 : net url = NetResponse.ok chunks tk) :
    downloadRun net cw url op tid errs =
      { result := IaGetResult.Success
        errs := errs.clear tid
        events := DlEvent.fetch url ::
          (progressEvents chunks
              (if tk then (chunks.map List.length).sum else 0) ++
            [DlEvent.ret IaGetResult.Success])
        file := some chunks.flatten } := by
  unfold downloadRun
  rw [if_neg h1, if_pos h2, h3]

theorem downloadRun_eq_interrupted (net : Network) (cw : String → Bool)
    (url op : String) (tid : Nat) (errs : ErrMap)
    (chunks : List (List Byte)) (adv : Nat)
    (h1 : ¬(validUrl url = false ∨ op = "")) (h2 : cw op = true)
    (h3 : net url = NetResponse.interrupted chunks adv) :
    downloadRun net cw url op tid errs =
      { result := IaGetResult.ErrorNetwork
        errs := (errs.clear tid).record tid ("connection interrupted " ++ url)
        events := DlEvent.fetch url ::
          (progressEvents chunks adv ++ [DlEvent.ret IaGetResult.ErrorNetwork])
        file := some chunks.flatten } := by
  unfold downloadRun
  rw [if_neg h1, if_pos h2, h3]

theorem samplesOf_fetch (u : String) (l : List DlEvent) :
    samplesOf (DlEvent.fetch u :: l) = samplesOf l := rfl

theorem ok_events_samples (url : String) (chunks : List (List Byte))
    (T : Nat) (r : IaGetResult) :
    samplesOf (DlEvent.fetch url ::
        (progressEvents chunks T ++ [DlEvent.ret r]))
      = (cumFrom 0 chunks).map (fun d => (d, T)) := by
  rw [samplesOf_fetch, samplesOf_append, samplesOf_ret, List.append_nil]
  unfold progressEvents
  exact samplesOf_map_progress _ _

theorem fetchCount_fetch_cons (u : String) (l : List DlEvent) :
    fetchCount (DlEvent.fetch u :: l) = fetchCount l + 1 := by
  simp [fetchCount]

theorem fetchCount_progressEvents (cs : List (List Byte)) (t : Nat) :
    fetchCount (progressEvents cs t) = 0 := by
  unfold progressEvents
  exact fetchCount_map_progress _ _

/-! ## C5: final progress sample of a successful download -/

/-- C5: for every download call that returns Success, the destination file
exists, every progress sample whose reported totalBytes is nonzero reports
exactly the file's byte length, and — when at least one progress sample
was emitted — the final sample's bytesTransferred equals the file's byte
length. -/
theorem download_success_final_progress (net : Network) (cw : String → Bool)
    (url op : String) (tid : Nat) (errs : ErrMap)
    (h : (downloadRun net cw url op tid errs).result = IaGetResult.Success) :
    ∃ content, (downloadRun net cw url op tid errs).file = some content ∧
      (∀ s ∈ samplesOf (downloadRun net cw url op tid errs).events,
        s.2 ≠ 0 → s.2 = content.length) ∧
      (samplesOf (downloadRun net cw url op tid errs).events ≠ [] →
        ∃ t, (samplesOf (downloadRun net cw url op tid errs).events).getLast?
          = some (content.length, t)) := by
  by_cases h1 : validUrl url = false ∨ op = ""
  · rw [downloadRun_eq_invalid net cw url op tid errs h1] at h
    exact IaGetResult.noConfusion h
  · cases hcw : cw op with
    | false =>
        rw [downloadRun_eq_fsErr net cw url op tid errs h1 hcw] at h
        exact IaGetResult.noConfusion h
    | true =>
      cases hn : net url with
      | netFail =>
          rw [downloadRun_eq_netFail net cw url op tid errs h1 hcw hn] at h
          exact IaGetResult.noConfusion h
      | interrupted chunks adv =>
          rw [downloadRun_eq_interrupted net cw url op tid errs chunks adv
            h1 hcw hn] at h
          exact IaGetResult.noConfusion h
      | ok chunks tk =>
          refine ⟨chunks.flatten, ?_, ?_, ?_⟩
          · rw [downloadRun_eq_ok net cw url op tid errs chunks tk h1 hcw hn]
          · rw [downloadRun_eq_ok net cw url op tid errs chunks tk h1 hcw hn]
            simp only [ok_events_samples]
            intro s hs hnz
            obtain ⟨d, hd, rfl⟩ := List.mem_map.mp hs
            cases tk with
            | false => simp at hnz
            | true => simp [List.length_flatten]
          · rw [downloadRun_eq_ok net cw url op tid errs chunks tk h1 hcw hn]
            simp only [ok_events_samples]
            intro hne
            have hch : chunks ≠ [] := by
              intro hc
              subst hc
              exact hne rfl
            refine ⟨if tk then (chunks.map List.length).sum else 0, ?_⟩
            rw [List.getLast?_map, cumFrom_getLast? chunks 0 hch]
            simp [List.length_flatten]

/-- C5 witness: a completed two-chunk transfer with a known total returns
Success, and the theorem's conclusion holds at it. -/
theorem download_success_final_progress_witness :
    ∃ content,
      (downloadRun (fun _ => NetResponse.ok [[7], [8, 9]] true)
          (fun _ => true) "http://x" "f" 0 (fun _ => none)).file
        = some content ∧
      (∀ s ∈ samplesOf (downloadRun (fun _ => NetResponse.ok [[7], [8, 9]] true)
          (fun _ => true) "http://x" "f" 0 (fun _ => none)).events,
        s.2 ≠ 0 → s.2 = content.length) ∧
      (samplesOf (downloadRun (fun _ => NetResponse.ok [[7], [8, 9]] true)
          (fun _ => true) "http://x" "f" 0 (fun _ => none)).events ≠ [] →
        ∃ t, (samplesOf (downloadRun (fun _ => NetResponse.ok [[7], [8, 9]] true)
            (fun _ => true) "http://x" "f" 0 (fun _ => none)).events).getLast?
          = some (content.length, t)) :=
  download_success_final_progress _ _ _ _ _ _ rfl

/-! ## C6: shape of the progress trace -/

/-- C6: for every download call, the emitted trace is some events followed
by exactly one terminal return of the call's result — no event, in
particular no progress sample, follows the return — and the progress
samples are monotonically non-decreasing in bytesTransferred. -/
theorem download_progress_trace_shape (net : Network) (cw : String → Bool)
    (url op : String) (tid : Nat) (errs : ErrMap) :
    ∃ pre, (downloadRun net cw url op tid errs).events
        = pre ++ [DlEvent.ret (downloadRun net cw url op tid errs).result] ∧
      (∀ e ∈ pre, ∀ r, e ≠ DlEvent.ret r) ∧
      List.Chain' (fun a b : Nat × Nat => a.1 ≤ b.1)
        (samplesOf (downloadRun net cw url op tid errs).events) := by
  by_cases h1 : validUrl url = false ∨ op = ""
  · rw [downloadRun_eq_invalid net cw url op tid errs h1]
    exact ⟨[], rfl, by simp, List.chain'_nil⟩
  · cases hcw : cw op with
    | false =>
        rw [downloadRun_eq_fsErr net cw url op tid errs h1 hcw]
        exact ⟨[], rfl, by simp, List.chain'_nil⟩
    | true =>
      cases hn : net url with
      | netFail =>
          rw [downloadRun_eq_netFail net cw url op tid errs h1 hcw hn]
          refine ⟨[DlEvent.fetch url], rfl, ?_, List.chain'_nil⟩
          intro e he r
          simp at he
          simp [he]
      | ok chunks tk =>
          rw [downloadRun_eq_ok net cw url op tid errs chunks tk h1 hcw hn]
          refine ⟨DlEvent.fetch url ::
            progressEvents chunks
              (if tk then (chunks.map List.length).sum else 0), rfl, ?_, ?_⟩
          · intro e he r
            rcases List.mem_cons.mp he with he | he
            · simp [he]
            · unfold progressEvents at he
              obtain ⟨d, _, rfl⟩ := List.mem_map.mp he
              simp
          · simp only [ok_events_samples]
            exact (List.chain'_map _).mpr (cumFrom_chain chunks 0)
      | interrupted chunks adv =>
          rw [downloadRun_eq_interrupted net cw url op tid errs chunks adv
            h1 hcw hn]
          refine ⟨DlEvent.fetch url :: progressEvents chunks adv, rfl, ?_, ?_⟩
          · intro e he r
            rcases List.mem_cons.mp he with he | he
            · simp [he]
            · unfold progressEvents at he
              obtain ⟨d, _, rfl⟩ := List.mem_map.mp he
              simp
          · simp only [ok_events_samples]
            exact (List.chain'_map _).mpr (cumFrom_chain chunks 0)

/-- C6 witness: the theorem's conclusion at a concrete interrupted
two-chunk transfer. -/
theorem download_progress_trace_shape_witness :
    ∃ pre, (downloadRun (fun _ => NetResponse.interrupted [[7], [8]] 5)
          (fun _ => true) "http://x" "f" 0 (fun _ => none)).events
        = pre ++ [DlEvent.ret (downloadRun
            (fun _ => NetResponse.interrupted [[7], [8]] 5)
            (fun _ => true) "http://x" "f" 0 (fun _ => none)).result] ∧
      (∀ e ∈ pre, ∀ r, e ≠ DlEvent.ret r) ∧
      List.Chain' (fun a b : Nat × Nat => a.1 ≤ b.1)
        (samplesOf (downloadRun (fun _ => NetResponse.interrupted [[7], [8]] 5)
          (fun _ => true) "http://x" "f" 0 (fun _ => none)).events) :=
  download_progress_trace_shape _ _ _ _ _ _

/-! ## C7: failure classification and single transfer -/

/-- C7: for every download call the result is classified into exactly one
category — InvalidInput exactly for a malformed URL or empty destination
path, FileSystemError exactly when the destination cannot be created or
written, NetworkError exactly for a connection failure, timeout,
non-success HTTP status or interrupted transfer — and the engine performs
the network transfer at most once per call (no automatic retry), exactly
once whenever the inputs pass validation and the destination is
writable. -/
theorem download_failure_classification (net : Network) (cw : String → Bool)
    (url op : String) (tid : Nat) (errs : ErrMap) :
    ((downloadRun net cw url op tid errs).result
        = IaGetResult.ErrorInvalidInput ↔ (validUrl url = false ∨ op = "")) ∧
    ((downloadRun net cw url op tid errs).result
        = IaGetResult.ErrorFileSystem ↔
      (¬(validUrl url = false ∨ op = "") ∧ cw op = false)) ∧
    ((downloadRun net cw url op tid errs).result
        = IaGetResult.ErrorNetwork ↔
      (¬(validUrl url = false ∨ op = "") ∧ cw op = true ∧
        (net url = NetResponse.netFail ∨
          ∃ chunks adv, net url = NetResponse.interrupted chunks adv))) ∧
    fetchCount (downloadRun net cw url op tid errs).events ≤ 1 ∧
    (¬(validUrl url = false ∨ op = "") ∧ cw op = true →
      fetchCount (downloadRun net cw url op tid errs).events = 1) := by
  by_cases h1 : validUrl url = false ∨ op = ""
  · rw [downloadRun_eq_invalid net cw url op tid errs h1]
    refine ⟨by simp [h1], by simp [h1], by simp [h1], ?_, by simp [h1]⟩
    show fetchCount [DlEvent.ret IaGetResult.ErrorInvalidInput] ≤ 1
    rw [fetchCount_ret]
    omega
  · cases hcw : cw op with
    | false =>
        rw [downloadRun_eq_fsErr net cw url op tid errs h1 hcw]
        refine ⟨by simp [h1], by simp [h1, hcw], by simp [h1, hcw], ?_,
          by simp [hcw]⟩
        show fetchCount [DlEvent.ret IaGetResult.ErrorFileSystem] ≤ 1
        rw [fetchCount_ret]
        omega
    | true =>
      cases hn : net url with
      | netFail =>
          rw [downloadRun_eq_netFail net cw url op tid errs h1 hcw hn]
          refine ⟨by simp [h1], by simp [h1, hcw], by simp [h1, hcw, hn],
            ?_, fun _ => ?_⟩
          · show fetchCount [DlEvent.fetch url,
              DlEvent.ret IaGetResult.ErrorNetwork] ≤ 1
            rw [show fetchCount [DlEvent.fetch url,
              DlEvent.ret IaGetResult.ErrorNetwork] = 1 from rfl]
          · exact rfl
      | ok chunks tk =>
          rw [downloadRun_eq_ok net cw url op tid errs chunks tk h1 hcw hn]
          have hfc : fetchCount (DlEvent.fetch url ::
              (progressEvents chunks
                  (if tk then (chunks.map List.length).sum else 0) ++
                [DlEvent.ret IaGetResult.Success])) = 1 := by
            rw [fetchCount_fetch_cons, fetchCount_append,
              fetchCount_progressEvents, fetchCount_ret]
          refine ⟨by simp [h1], by simp [h1, hcw], by simp [h1, hcw, hn],
            ?_, fun _ => hfc⟩
          rw [hfc]
      | interrupted chunks adv =>
          rw [downloadRun_eq_interrupted net cw url op tid errs chunks adv
            h1 hcw hn]
          have hfc : fetchCount (DlEvent.fetch url ::
              (progressEvents chunks adv ++
                [DlEvent.ret IaGetResult.ErrorNetwork])) = 1 := by
            rw [fetchCount_fetch_cons, fetchCount_append,
              fetchCount_progressEvents, fetchCount_ret]
          refine ⟨by simp [h1], by simp [h1, hcw], ?_, ?_, fun _ => hfc⟩
          · simp only [hn]
            constructor
            · intro _
              exact ⟨h1, trivial, Or.inr ⟨chunks, adv, rfl⟩⟩
            · intro _
              trivial
          · rw [hfc]

/-- C7 witness: a malformed URL is classified InvalidInput with no
transfer attempted. -/
theorem download_failure_classification_witness :
    (downloadRun (fun _ => NetResponse.netFail) (fun _ => true)
        "ftp://x" "f" 0 (fun _ => none)).result
      = IaGetResult.ErrorInvalidInput ∧
    fetchCount (downloadRun (fun _ => NetResponse.netFail) (fun _ => true)
        "ftp://x" "f" 0 (fun _ => none)).events ≤ 1 :=
  ⟨(download_failure_classification (fun _ => NetResponse.netFail)
      (fun _ => true) "ftp://x" "f" 0 (fun _ => none)).1.mpr
      (Or.inl rfl),
   (download_failure_classification (fun _ => NetResponse.netFail)
      (fun _ => true) "ftp://x" "f" 0 (fun _ => none)).2.2.2.1⟩

/-! ## C3: the Error Reporter invariant -/

/-- The Error Reporter discipline after one completed public operation on
thread `tid`: a successful call leaves the thread's slot cleared, a
failing call leaves exactly one message there, and other threads' slots
are untouched. -/
def ReporterOk (errs : ErrMap) (tid : Nat) (out : OpOutcome)
    (errs2 : ErrMap) : Prop :=
  (out.isFailure = false → errs2.last tid = none) ∧
  (out.isFailure = true → ∃ msg, errs2.last tid = some msg) ∧
  (∀ t, t ≠ tid → errs2.last t = errs.last t)

theorem reporterOk_clear (errs : ErrMap) (tid : Nat) (out : OpOutcome)
    (h : out.isFailure = false) : ReporterOk errs tid out (errs.clear tid) := by
  refine ⟨fun _ => ErrMap.last_clear_self errs tid, fun hf => ?_,
    fun t ht => ErrMap.last_clear_other errs tid t ht⟩
  rw [h] at hf
  exact Bool.noConfusion hf

theorem reporterOk_record (errs : ErrMap) (tid : Nat) (out : OpOutcome)
    (msg : String) (h : out.isFailure = true) :
    ReporterOk errs tid out ((errs.clear tid).record tid msg) := by
  refine ⟨fun hf => ?_, fun _ => ⟨msg, ErrMap.last_record_self _ tid msg⟩,
    fun t ht => ?_⟩
  · rw [h] at hf
    exact Bool.noConfusion hf
  · rw [ErrMap.last_record_other _ tid t msg ht]
    exact ErrMap.last_clear_other errs tid t ht

/-- C3: for every public operation — fetch metadata, download, decompress,
validate checksum — and every calling thread: a call that succeeds leaves
the calling thread's Error Reporter slot cleared, a call that fails
returns its failure signal (null, non-Success, or -1) and leaves exactly one
message in the slot, and other threads' slots are untouched. -/
theorem op_error_reporter_invariant (op : OpCall) (tid : Nat) (errs : ErrMap) :
    ReporterOk errs tid (runOp op tid errs).1 (runOp op tid errs).2 := by
  cases op with
  | fetchMeta mn ident =>
      have hout : runOp (OpCall.fetchMeta mn ident) tid errs
          = (OpOutcome.strOut (fetchMetadataRun mn ident tid errs).1,
             (fetchMetadataRun mn ident tid errs).2) := rfl
      by_cases hid : ident = ""
      · have hf : fetchMetadataRun mn ident tid errs
            = (none, (errs.clear tid).record tid "empty identifier") := by
          unfold fetchMetadataRun
          rw [if_pos hid]
        rw [hout, hf]
        exact reporterOk_record errs tid _ _ rfl
      · cases hm : mn ident with
        | netFail =>
            have hf : fetchMetadataRun mn ident tid errs
                = (none, (errs.clear tid).record tid
                    ("metadata request failed " ++ ident)) := by
              unfold fetchMetadataRun
              rw [if_neg hid, hm]
            rw [hout, hf]
            exact reporterOk_record errs tid _ _ rfl
        | malformed =>
            have hf : fetchMetadataRun mn ident tid errs
                = (none, (errs.clear tid).record tid
                    ("cannot parse metadata " ++ ident)) := by
              unfold fetchMetadataRun
              rw [if_neg hid, hm]
            rw [hout, hf]
            exact reporterOk_record errs tid _ _ rfl
        | ok doc =>
            have hf : fetchMetadataRun mn ident tid errs
                = (some doc, errs.clear tid) := by
              unfold fetchMetadataRun
              rw [if_neg hid, hm]
            rw [hout, hf]
            exact reporterOk_clear errs tid _ rfl
  | download net cw url op =>
      have hout : runOp (OpCall.download net cw url op) tid errs
          = (OpOutcome.resOut (downloadRun net cw url op tid errs).result,
             (downloadRun net cw url op tid errs).errs) := rfl
      by_cases h1 : validUrl url = false ∨ op = ""
      · rw [hout, downloadRun_eq_invalid net cw url op tid errs h1]
        exact reporterOk_record errs tid _ _ rfl
      · cases hcw : cw op with
        | false =>
            rw [hout, downloadRun_eq_fsErr net cw url op tid errs h1 hcw]
            exact reporterOk_record errs tid _ _ rfl
        | true =>
          cases hn : net url with
          | netFail =>
              rw [hout, downloadRun_eq_netFail net cw url op tid errs h1 hcw hn]
              exact reporterOk_record errs tid _ _ rfl
          | ok chunks tk =>
              rw [hout, downloadRun_eq_ok net cw url op tid errs chunks tk
                h1 hcw hn]
              exact reporterOk_clear errs tid _ rfl
          | interrupted chunks adv =>
              rw [hout, downloadRun_eq_interrupted net cw url op tid errs
                chunks adv h1 hcw hn]
              exact reporterOk_record errs tid _ _ rfl
  | decompress dirOk arch outDir =>
      have hout : runOp (OpCall.decompress dirOk arch outDir) tid errs
          = (OpOutcome.pathsOut
              (decompressRun dirOk arch outDir tid errs).paths,
             (decompressRun dirOk arch outDir tid errs).errs) := rfl
      cases he : archiveEntries arch with
      | none =>
          have hd : decompressRun dirOk arch outDir tid errs
              = { paths := none
                  errs := (errs.clear tid).record tid
                    "corrupt or unrecognized archive data"
                  written := [] } := by
            unfold decompressRun
            rw [he]
          rw [hout, hd]
          exact reporterOk_record errs tid _ _ rfl
      | some es =>
          cases dirOk with
          | true =>
              have hd : decompressRun true arch outDir tid errs
                  = { paths := some (extractEntries outDir es).2
                      errs := errs.clear tid
                      written := (extractEntries outDir es).1 } := by
                unfold decompressRun
                rw [he]
                rfl
              rw [hout, hd]
              exact reporterOk_clear errs tid _ rfl
          | false =>
              have hd : decompressRun false arch outDir tid errs
                  = { paths := none
                      errs := (errs.clear tid).record tid
                        "cannot create output directory"
                      written := [] } := by
                unfold decompressRun
                rw [he]
                rfl
              rw [hout, hd]
              exact reporterOk_record errs tid _ _ rfl
  | validate fs fp eh ht =>
      have hout : runOp (OpCall.validate fs fp eh ht) tid errs
          = (OpOutcome.triOut (validateChecksum fs fp eh ht tid errs).1,
             (validateChecksum fs fp eh ht tid errs).2) := rfl
      cases hp : parseHashAlg ht with
      | none =>
          rw [hout, validate_eq_of_badAlg fs fp eh tid errs hp]
          exact reporterOk_record errs tid _ _ rfl
      | some alg =>
        cases hf : FS.find fs fp with
        | none =>
            rw [hout, validate_eq_of_noFile eh tid errs hp hf]
            exact reporterOk_record errs tid _ _ rfl
        | some fi =>
          cases hrd : fi.readable with
          | false =>
              rw [hout, validate_eq_of_unreadable eh tid errs hp hf hrd]
              exact reporterOk_record errs tid _ _ rfl
          | true =>
            by_cases hm : strLower (hexDigest alg fi.bytes) = strLower eh
            · rw [hout, validate_eq_of_match tid errs hp hf hrd hm]
              exact reporterOk_clear errs tid _ rfl
            · rw [hout, validate_eq_of_mismatch tid errs hp hf hrd hm]
              exact reporterOk_clear errs tid _ rfl

/-- C3 witness: validating a checksum against a missing file fails and
leaves a message, per the invariant applied at that concrete call. -/
theorem op_error_reporter_invariant_witness :
    (runOp (OpCall.validate [] "f" "" "md5") 0 (fun _ => none)).1.isFailure
      = true ∧
    ∃ msg, ((runOp (OpCall.validate [] "f" "" "md5") 0
        (fun _ => none)).2).last 0 = some msg :=
  ⟨rfl, (op_error_reporter_invariant (OpCall.validate [] "f" "" "md5") 0
      (fun _ => none)).2.1 rfl⟩

/-! ## C9: releasing NULL is safe -/

/-- C9: calling the string-release operation with a NULL pointer is
accepted and has no effect on the allocation state, for every state —
unlike releasing a value not obtained from the interface, which is
undefined. -/
theorem free_string_null_accepted :
    (∀ live : List Nat, freeString none live = some live) ∧
    (∀ (h : Nat) (live : List Nat), h ∉ live →
      freeString (some h) live = none) := by
  constructor
  · intro live
    rfl
  · intro h live hn
    show (if h ∈ live then some (live.erase h) else none) = none
    rw [if_neg hn]

/-- C9 witness: releasing NULL over the live state `[5]` is a no-op;
releasing the never-returned handle 7 is undefined. -/
theorem free_string_null_accepted_witness :
    freeString none [5] = some [5] ∧ freeString (some 7) [5] = none :=
  ⟨free_string_null_accepted.1 [5],
   free_string_null_accepted.2 7 [5] (by decide)⟩

end IaGet
